import Mathlib

/-!
Verification of the porthouse rotator-geometry and orbit-tracker subsystems.

The definitions below are a shallow embedding of `gs/hardware/geometry.py`
(quaternion utilities, the `AzElRotator` model, the calibration helpers) and
of `gs/tracking/orbit_tracker.py` (the `TargetTracker` state machine and the
`OrbitTracker.add_target` guard logic).  Python floats are modelled as real
numbers; Python `%` on a positive modulus is floor-mod.
-/

noncomputable section

open Real

/-- Degrees to radians, as numpy `deg2rad`. -/
def deg2rad (x : ℝ) : ℝ := x * (Real.pi / 180)

/-- Radians to degrees, as numpy `rad2deg`. -/
def rad2deg (x : ℝ) : ℝ := x * (180 / Real.pi)

/-- Python float `%` with a positive modulus: `x % m = x - m * ⌊x / m⌋`. -/
def pymod (x m : ℝ) : ℝ := x - m * ⌊x / m⌋

/-- geometry.py `wrapdeg`: `(angle + 180) % 360 - 180`. -/
def wrapdeg (angle : ℝ) : ℝ := pymod (angle + 180) 360 - 180

/-- numpy `arctan2 y x`, realised as the argument of the complex number `x + y i`;
its range is `(-π, π]` and `atan2 0 0 = 0`. -/
def atan2 (y x : ℝ) : ℝ := Complex.arg ⟨x, y⟩

/-- numpy `clip x lo hi`. -/
def clip (x lo hi : ℝ) : ℝ := min (max x lo) hi

/-- Rotation-axis tag appearing in the `order` string of `eul_to_q`. -/
inductive Axis
  | x
  | y
  | z
deriving DecidableEq

/-- Single-axis rotation quaternion built inside `eul_to_q`:
`w = cos (angle/2)` and `sin (angle/2)` in the slot of the given axis. -/
def axisQ (angle : ℝ) (ax : Axis) : Quaternion ℝ :=
  match ax with
  | .x => ⟨Real.cos (angle / 2), Real.sin (angle / 2), 0, 0⟩
  | .y => ⟨Real.cos (angle / 2), 0, Real.sin (angle / 2), 0⟩
  | .z => ⟨Real.cos (angle / 2), 0, 0, Real.sin (angle / 2)⟩

/-- geometry.py `eul_to_q`: combine Euler rotations using the body-fixed
convention, `q := (dq * q)` when `reverse` else `(q * dq)`, starting from `1`. -/
def eul_to_q (angles : List ℝ) (order : List Axis) (reverse : Bool := false) :
    Quaternion ℝ :=
  (angles.zip order).foldl
    (fun q p => if reverse then axisQ p.1 p.2 * q else q * axisQ p.1 p.2) 1

/-- geometry.py `q_times_v`: rotate vector `v` by quaternion `q` via `q v q*`. -/
def q_times_v (q : Quaternion ℝ) (v : ℝ × ℝ × ℝ) : ℝ × ℝ × ℝ :=
  let qv : Quaternion ℝ := ⟨0, v.1, v.2.1, v.2.2⟩
  let r := q * qv * star q
  (r.imI, r.imJ, r.imK)

/-- `quaternion.from_rotation_vector`: exponential of half the rotation vector,
`(cos (θ/2), sin (θ/2) · v/θ)` with `θ = ‖v‖`; at `v = 0` this is `1` because
division by zero yields zero. -/
def from_rotation_vector (v : ℝ × ℝ × ℝ) : Quaternion ℝ :=
  let θ := Real.sqrt (v.1 ^ 2 + v.2.1 ^ 2 + v.2.2 ^ 2)
  ⟨Real.cos (θ / 2), Real.sin (θ / 2) * v.1 / θ, Real.sin (θ / 2) * v.2.1 / θ,
    Real.sin (θ / 2) * v.2.2 / θ⟩

/-- geometry.py `to_ypr`: yaw-pitch-roll extraction from a quaternion, with the
`arcsin` argument clipped to `[-1, 1]`. -/
def to_ypr (q : Quaternion ℝ) : ℝ × ℝ × ℝ :=
  let q0 := q.re
  let q1 := q.imI
  let q2 := q.imJ
  let q3 := q.imK
  let roll := atan2 (q2 * q3 + q0 * q1) (0.5 - q1 ^ 2 - q2 ^ 2)
  let pitch := Real.arcsin (clip (-2 * (q1 * q3 - q0 * q2)) (-1) 1)
  let yaw := atan2 (q1 * q2 + q0 * q3) (0.5 - q2 ^ 2 - q3 ^ 2)
  (yaw, pitch, roll)

/-- geometry.py `to_azel`: `(yaw, pitch)` of the quaternion, in degrees. -/
def to_azel (q : Quaternion ℝ) : ℝ × ℝ :=
  let ypr := to_ypr q
  (rad2deg ypr.1, rad2deg ypr.2.1)

/-- geometry.py `AzElRotator` parameter set; the defaults are the identity
model (offsets 0, gains 1, tilts 0). -/
structure AzElRotator where
  el_off : ℝ := 0
  az_off : ℝ := 0
  el_gain : ℝ := 1
  az_gain : ℝ := 1
  tilt_az : ℝ := 0
  tilt_angle : ℝ := 0
  lateral_tilt : ℝ := 0

/-- geometry.py `AzElRotator.payload_q`: quaternion of the payload tilt. -/
def payload_q (p : AzElRotator) : Quaternion ℝ :=
  eul_to_q [deg2rad p.lateral_tilt] [Axis.z]

/-- geometry.py `AzElRotator.platform_q`: quaternion of the platform tilt. -/
def platform_q (p : AzElRotator) : Quaternion ℝ :=
  let tilt_axis := q_times_v (eul_to_q [deg2rad (p.tilt_az - 90)] [Axis.z]) (1, 0, 0)
  from_rotation_vector (tilt_axis.1 * deg2rad p.tilt_angle,
    tilt_axis.2.1 * deg2rad p.tilt_angle, tilt_axis.2.2 * deg2rad p.tilt_angle)

/-- geometry.py `AzElRotator.to_real` without rate inputs: undo offsets and
gains, build `q_m`, tilt it into the real frame, extract azimuth/elevation and
apply the `±360` branch fix-up unless `wrap` is set. -/
def to_real (p : AzElRotator) (az el : ℝ) (wrap : Bool := false) : ℝ × ℝ :=
  let az_m := deg2rad (wrapdeg ((az - p.az_off) / p.az_gain))
  let el_m := deg2rad ((el - p.el_off) / p.el_gain)
  let q_m := eul_to_q [az_m, el_m] [Axis.z, Axis.y]
  let q_r := platform_q p * q_m * payload_q p
  let ae := to_azel q_r
  let az_r := if wrap = false ∧ 180 < |ae.1 - az| then ae.1 + 360 else ae.1
  (az_r, ae.2)

/-- geometry.py `AzElRotator.to_real` when rate inputs are supplied.  Note that
the source returns the pair `(az_m, el_m)` — the motor-frame intermediate
values in radians — as the position, together with the real-frame rates. -/
def to_real_rates (p : AzElRotator) (az el az_dot el_dot : ℝ) :
    (ℝ × ℝ) × (ℝ × ℝ) :=
  let az_m := deg2rad (wrapdeg ((az - p.az_off) / p.az_gain))
  let el_m := deg2rad ((el - p.el_off) / p.el_gain)
  let q_m := eul_to_q [az_m, el_m] [Axis.z, Axis.y]
  let q_r := platform_q p * q_m * payload_q p
  let omega_m : Quaternion ℝ := ⟨0, 0, deg2rad el_dot / p.el_gain, deg2rad az_dot / p.az_gain⟩
  let q_m_dot := (0.5 : ℝ) • (omega_m * q_m)
  let q_r_dot := platform_q p * q_m_dot * payload_q p
  let omega_r := (2 : ℝ) • (q_r_dot * star q_r)
  ((az_m, el_m), (rad2deg omega_r.imK, rad2deg omega_r.imJ))

/-- geometry.py `AzElRotator.to_motor` without rate inputs. -/
def to_motor (p : AzElRotator) (az el : ℝ) (wrap : Bool := false) : ℝ × ℝ :=
  let q_r := eul_to_q [deg2rad az, deg2rad el] [Axis.z, Axis.y]
  let q_m := star (platform_q p) * q_r * star (payload_q p)
  let ae := to_azel q_m
  let az_m := wrapdeg (ae.1 * p.az_gain + p.az_off)
  let el_m := ae.2 * p.el_gain + p.el_off
  let az_m2 := if wrap = false ∧ 180 < |az_m - az| then az_m + 360 else az_m
  (az_m2, el_m)

/-! ### Basic facts about `wrapdeg` -/

theorem pymod_eq_fract (x m : ℝ) (hm : m ≠ 0) : pymod x m = m * Int.fract (x / m) := by
  have hx : m * (x / m) = x := by
    field_simp
  unfold pymod Int.fract
  rw [mul_sub, hx]

theorem pymod_mem_Ico (x m : ℝ) (hm : 0 < m) : pymod x m ∈ Set.Ico 0 m := by
  rw [pymod_eq_fract x m hm.ne']
  constructor
  · exact mul_nonneg hm.le (Int.fract_nonneg _)
  · have := mul_lt_mul_of_pos_left (Int.fract_lt_one (x / m)) hm
    linarith

theorem wrapdeg_mem_Ico (x : ℝ) : wrapdeg x ∈ Set.Ico (-180 : ℝ) 180 := by
  have h := pymod_mem_Ico (x + 180) 360 (by norm_num)
  unfold wrapdeg
  constructor
  · linarith [h.1]
  · linarith [h.2]

theorem wrapdeg_eq_self {x : ℝ} (h : x ∈ Set.Ico (-180 : ℝ) 180) : wrapdeg x = x := by
  have hfl : ⌊(x + 180) / 360⌋ = 0 := by
    rw [Int.floor_eq_zero_iff]
    constructor
    · have h1 := h.1
      simp only [Set.mem_Ico] at h ⊢
      linarith [h.1]
    · have h2 := h.2
      simp only [Set.mem_Ico] at h ⊢
      linarith [h.2]
  unfold wrapdeg pymod
  rw [hfl]
  ring

theorem wrapdeg_idem (x : ℝ) : wrapdeg (wrapdeg x) = wrapdeg x :=
  wrapdeg_eq_self (wrapdeg_mem_Ico x)

theorem wrapdeg_eq_sub {x : ℝ} (h : x ∈ Set.Ico (180 : ℝ) 540) : wrapdeg x = x - 360 := by
  have hfl : ⌊(x + 180) / 360⌋ = 1 := by
    rw [Int.floor_eq_iff]
    constructor
    · push_cast
      linarith [h.1]
    · push_cast
      linarith [h.2]
  unfold wrapdeg pymod
  rw [hfl]
  push_cast
  ring

/-! ### Quaternion angle-extraction lemmas -/

theorem eul_to_q_zy (α ε : ℝ) :
    eul_to_q [α, ε] [Axis.z, Axis.y] =
      ⟨Real.cos (α / 2) * Real.cos (ε / 2), -(Real.sin (α / 2) * Real.sin (ε / 2)),
       Real.cos (α / 2) * Real.sin (ε / 2), Real.sin (α / 2) * Real.cos (ε / 2)⟩ := by
  ext <;>
    simp [eul_to_q, axisQ, Quaternion.mul_re, Quaternion.mul_imI, Quaternion.mul_imJ,
      Quaternion.mul_imK]

theorem atan2_mul_cos_sin (t α : ℝ) (ht : 0 < t) (hα : α ∈ Set.Ioc (-π) π) :
    atan2 (t * Real.sin α) (t * Real.cos α) = α := by
  unfold atan2
  have h : (⟨t * Real.cos α, t * Real.sin α⟩ : ℂ) =
      (t : ℂ) * (Complex.cos α + Complex.sin α * Complex.I) := by
    apply Complex.ext <;>
      simp [Complex.cos_ofReal_re, Complex.sin_ofReal_re]
  rw [h, Complex.arg_mul_cos_add_sin_mul_I ht hα]

theorem to_ypr_zy (α ε : ℝ) (hα : α ∈ Set.Ioc (-π) π) (hε : ε ∈ Set.Ioo (-(π / 2)) (π / 2)) :
    (to_ypr (eul_to_q [α, ε] [Axis.z, Axis.y])).1 = α ∧
      (to_ypr (eul_to_q [α, ε] [Axis.z, Axis.y])).2.1 = ε := by
  rw [eul_to_q_zy]
  set sa := Real.sin (α / 2) with hsa_def
  set ca := Real.cos (α / 2) with hca_def
  set se := Real.sin (ε / 2) with hse_def
  set ce := Real.cos (ε / 2) with hce_def
  have hpy_a : sa ^ 2 + ca ^ 2 = 1 := Real.sin_sq_add_cos_sq (α / 2)
  have hpy_e : se ^ 2 + ce ^ 2 = 1 := Real.sin_sq_add_cos_sq (ε / 2)
  have hsin_a : Real.sin α = 2 * sa * ca := by
    have h := Real.sin_two_mul (α / 2)
    rw [show 2 * (α / 2) = α by ring] at h
    exact h
  have hcos_a : Real.cos α = ca ^ 2 - sa ^ 2 := by
    have h := Real.cos_two_mul (α / 2)
    rw [show 2 * (α / 2) = α by ring] at h
    linarith
  have hsin_e : Real.sin ε = 2 * se * ce := by
    have h := Real.sin_two_mul (ε / 2)
    rw [show 2 * (ε / 2) = ε by ring] at h
    exact h
  have hcos_e : Real.cos ε = ce ^ 2 - se ^ 2 := by
    have h := Real.cos_two_mul (ε / 2)
    rw [show 2 * (ε / 2) = ε by ring] at h
    linarith
  have hce_pos : 0 < Real.cos ε := Real.cos_pos_of_mem_Ioo hε
  constructor
  · show atan2 (-(sa * se) * (ca * se) + ca * ce * (sa * ce))
      (0.5 - (ca * se) ^ 2 - (sa * ce) ^ 2) = α
    have hnum : -(sa * se) * (ca * se) + ca * ce * (sa * ce)
        = (1 / 2 * Real.cos ε) * Real.sin α := by
      rw [hsin_a, hcos_e]
      ring
    have hden : (0.5 : ℝ) - (ca * se) ^ 2 - (sa * ce) ^ 2
        = (1 / 2 * Real.cos ε) * Real.cos α := by
      rw [hcos_a, hcos_e]
      linear_combination (-(1 : ℝ) / 2 * (se ^ 2 + ce ^ 2)) * hpy_a + (-(1 : ℝ) / 2) * hpy_e
    rw [hnum, hden]
    exact atan2_mul_cos_sin _ α (by linarith) hα
  · show Real.arcsin (clip (-2 * (-(sa * se) * (sa * ce) - ca * ce * (ca * se))) (-1) 1) = ε
    have harg : -2 * (-(sa * se) * (sa * ce) - ca * ce * (ca * se)) = Real.sin ε := by
      rw [hsin_e]
      linear_combination (2 * se * ce) * hpy_a
    rw [harg]
    have hclip : clip (Real.sin ε) (-1) 1 = Real.sin ε := by
      unfold clip
      rw [max_eq_left (Real.neg_one_le_sin ε), min_eq_left (Real.sin_le_one ε)]
    rw [hclip]
    exact Real.arcsin_sin (by linarith [hε.1]) (by linarith [hε.2])

theorem to_ypr_neg (q : Quaternion ℝ) : to_ypr (-q) = to_ypr q := by
  unfold to_ypr
  simp only [Quaternion.neg_re, Quaternion.neg_imI, Quaternion.neg_imJ, Quaternion.neg_imK]
  have h1 : -q.imI * -q.imJ + -q.re * -q.imK = q.imI * q.imJ + q.re * q.imK := by ring
  have h2 : (0.5 : ℝ) - (-q.imJ) ^ 2 - (-q.imK) ^ 2 = 0.5 - q.imJ ^ 2 - q.imK ^ 2 := by ring
  have h3 : (-2 : ℝ) * (-q.imI * -q.imK - -q.re * -q.imJ)
      = -2 * (q.imI * q.imK - q.re * q.imJ) := by ring
  have h4 : -q.imJ * -q.imK + -q.re * -q.imI = q.imJ * q.imK + q.re * q.imI := by ring
  have h5 : (0.5 : ℝ) - (-q.imI) ^ 2 - (-q.imJ) ^ 2 = 0.5 - q.imI ^ 2 - q.imJ ^ 2 := by ring
  rw [h1, h2, h3, h4, h5]

theorem eul_to_q_zy_sub_two_pi (α ε : ℝ) :
    eul_to_q [α - 2 * π, ε] [Axis.z, Axis.y] = -eul_to_q [α, ε] [Axis.z, Axis.y] := by
  rw [eul_to_q_zy, eul_to_q_zy]
  have hc : Real.cos ((α - 2 * π) / 2) = -Real.cos (α / 2) := by
    rw [show (α - 2 * π) / 2 = α / 2 - π by ring, Real.cos_sub_pi]
  have hs : Real.sin ((α - 2 * π) / 2) = -Real.sin (α / 2) := by
    rw [show (α - 2 * π) / 2 = α / 2 - π by ring, Real.sin_sub_pi]
  rw [hc, hs]
  ext <;> simp

theorem rad2deg_deg2rad (x : ℝ) : rad2deg (deg2rad x) = x := by
  unfold rad2deg deg2rad
  field_simp

theorem deg2rad_mem_Ioc {a : ℝ} (h : a ∈ Set.Ioo (-180 : ℝ) 180) :
    deg2rad a ∈ Set.Ioc (-π) π := by
  obtain ⟨h1, h2⟩ := h
  unfold deg2rad
  constructor
  · nlinarith [Real.pi_pos]
  · nlinarith [Real.pi_pos]

theorem deg2rad_mem_half {e : ℝ} (h : e ∈ Set.Ioo (-90 : ℝ) 90) :
    deg2rad e ∈ Set.Ioo (-(π / 2)) (π / 2) := by
  obtain ⟨h1, h2⟩ := h
  unfold deg2rad
  constructor
  · nlinarith [Real.pi_pos]
  · nlinarith [Real.pi_pos]

theorem to_azel_zy_deg (a e : ℝ) (ha : a ∈ Set.Ioo (-180 : ℝ) 180)
    (he : e ∈ Set.Ioo (-90 : ℝ) 90) :
    to_azel (eul_to_q [deg2rad a, deg2rad e] [Axis.z, Axis.y]) = (a, e) := by
  have h := to_ypr_zy (deg2rad a) (deg2rad e) (deg2rad_mem_Ioc ha) (deg2rad_mem_half he)
  show (rad2deg (to_ypr (eul_to_q [deg2rad a, deg2rad e] [Axis.z, Axis.y])).1,
      rad2deg (to_ypr (eul_to_q [deg2rad a, deg2rad e] [Axis.z, Axis.y])).2.1) = (a, e)
  rw [h.1, h.2, rad2deg_deg2rad, rad2deg_deg2rad]

/-! ### The tilt quaternions are trivial when the tilt parameters vanish -/

theorem from_rotation_vector_zero : from_rotation_vector (0, 0, 0) = 1 := by
  unfold from_rotation_vector
  ext <;> simp

theorem payload_q_id {p : AzElRotator} (h : p.lateral_tilt = 0) : payload_q p = 1 := by
  unfold payload_q
  rw [h]
  show (1 : Quaternion ℝ) * axisQ (deg2rad 0) Axis.z = 1
  unfold deg2rad axisQ
  ext <;> simp

theorem platform_q_id {p : AzElRotator} (h : p.tilt_angle = 0) : platform_q p = 1 := by
  unfold platform_q
  rw [h]
  have hz : deg2rad 0 = 0 := by
    unfold deg2rad
    ring
  rw [hz]
  simp only [mul_zero]
  exact from_rotation_vector_zero

/-! ### Evaluation of `to_real` and `to_motor` when both tilts vanish -/

theorem to_real_eval (p : AzElRotator) (az el : ℝ) (w : Bool)
    (h0 : p.tilt_angle = 0) (h1 : p.lateral_tilt = 0)
    (ha : wrapdeg ((az - p.az_off) / p.az_gain) ∈ Set.Ioo (-180 : ℝ) 180)
    (he : (el - p.el_off) / p.el_gain ∈ Set.Ioo (-90 : ℝ) 90) :
    to_real p az el w =
      (if w = false ∧ 180 < |wrapdeg ((az - p.az_off) / p.az_gain) - az|
        then wrapdeg ((az - p.az_off) / p.az_gain) + 360
        else wrapdeg ((az - p.az_off) / p.az_gain),
       (el - p.el_off) / p.el_gain) := by
  simp only [to_real]
  rw [platform_q_id h0, payload_q_id h1, one_mul, mul_one, to_azel_zy_deg _ _ ha he]

theorem to_motor_eval (p : AzElRotator) (az el : ℝ) (w : Bool)
    (h0 : p.tilt_angle = 0) (h1 : p.lateral_tilt = 0)
    (ha : az ∈ Set.Ioo (-180 : ℝ) 180) (he : el ∈ Set.Ioo (-90 : ℝ) 90) :
    to_motor p az el w =
      (if w = false ∧ 180 < |wrapdeg (az * p.az_gain + p.az_off) - az|
        then wrapdeg (az * p.az_gain + p.az_off) + 360
        else wrapdeg (az * p.az_gain + p.az_off),
       el * p.el_gain + p.el_off) := by
  simp only [to_motor]
  rw [platform_q_id h0, payload_q_id h1]
  simp only [star_one, one_mul, mul_one]
  rw [to_azel_zy_deg _ _ ha he]

/-- The identity parameter set: offsets 0, gains 1, tilts 0. -/
def identityRotator : AzElRotator := {}

/-! ### Claim C6 -/

/-- Claim C6, counterexample: at `x = 180` the code gives `wrapdeg 180 = -180`,
which does not lie in the claimed interval `(-180, 180]`; the range of
`wrapdeg` is the other half-open interval `[-180, 180)`. -/
theorem C6_counterexample :
    wrapdeg (180 : ℝ) = -180 ∧ wrapdeg (180 : ℝ) ∉ Set.Ioc (-180 : ℝ) 180 := by
  have h : wrapdeg (180 : ℝ) = -180 := by
    rw [wrapdeg_eq_sub (by norm_num)]
    norm_num
  refine ⟨h, ?_⟩
  rw [h]
  simp

/-- Claim C6 (amended): for every real `x`, `wrapdeg x = ((x + 180) mod 360) - 180`
lies in the half-open interval `[-180, 180)`, and `wrapdeg` is idempotent. -/
theorem C6_wrapdeg_range_idem (x : ℝ) :
    wrapdeg x ∈ Set.Ico (-180 : ℝ) 180 ∧ wrapdeg (wrapdeg x) = wrapdeg x :=
  ⟨wrapdeg_mem_Ico x, wrapdeg_idem x⟩

/-! ### Claim C7 -/

/-- Claim C7, counterexample: with identity parameters and the default
`wrap=False`, the branch fix-up makes `to_real 270 0 = (270, 0)`, not
`(wrapdeg 270, 0) = (-90, 0)` as the claim states. -/
theorem C7_counterexample :
    to_real identityRotator 270 0 false = (270, 0) ∧
      to_real identityRotator 270 0 false ≠ (wrapdeg 270, 0) := by
  have h270 : ((270 : ℝ) - identityRotator.az_off) / identityRotator.az_gain = 270 := by
    show ((270 : ℝ) - 0) / 1 = 270
    norm_num
  have hw : wrapdeg (270 : ℝ) = -90 := by
    rw [wrapdeg_eq_sub (by norm_num)]
    norm_num
  have h := to_real_eval identityRotator 270 0 false rfl rfl
    (by rw [h270, hw]; norm_num)
    (by show ((0 : ℝ) - 0) / 1 ∈ Set.Ioo (-90 : ℝ) 90; norm_num)
  have hel : ((0 : ℝ) - identityRotator.el_off) / identityRotator.el_gain = 0 := by
    show ((0 : ℝ) - 0) / 1 = 0
    norm_num
  rw [h270, hw, hel] at h
  have hval : to_real identityRotator 270 0 false = (270, 0) := by
    rw [h]
    norm_num
  refine ⟨hval, ?_⟩
  rw [hval, hw]
  intro hcontra
  have := congrArg Prod.fst hcontra
  norm_num at this

/-- Claim C7 (amended): with identity parameters (offsets 0, gains 1, tilts 0),
for every azimuth `a` strictly inside the principal branch `(-180, 180)` and
every elevation with `|e| < 90` degrees, `to_real (a, e) = (wrapdeg a, e)` and
`to_motor (a, e) = (wrapdeg a, e)`; in particular `to_real (90, 45) = (90, 45)`. -/
theorem C7_identity_model (a e : ℝ) (ha : a ∈ Set.Ioo (-180 : ℝ) 180)
    (he : e ∈ Set.Ioo (-90 : ℝ) 90) :
    to_real identityRotator a e false = (wrapdeg a, e) ∧
      to_motor identityRotator a e false = (wrapdeg a, e) := by
  have haw : wrapdeg a = a := wrapdeg_eq_self ⟨ha.1.le, ha.2⟩
  constructor
  · have hdiv : (a - identityRotator.az_off) / identityRotator.az_gain = a := by
      show (a - 0) / 1 = a
      norm_num
    have hediv : (e - identityRotator.el_off) / identityRotator.el_gain = e := by
      show (e - 0) / 1 = e
      norm_num
    have h := to_real_eval identityRotator a e false rfl rfl
      (by rw [hdiv, haw]; exact ha)
      (by rw [hediv]; exact he)
    rw [hdiv, haw, hediv] at h
    rw [h]
    have hnb : ¬(false = false ∧ (180 : ℝ) < |a - a|) := by
      simp
    rw [if_neg hnb, haw]
  · have hmul : a * identityRotator.az_gain + identityRotator.az_off = a := by
      show a * 1 + 0 = a
      ring
    have hemul : e * identityRotator.el_gain + identityRotator.el_off = e := by
      show e * 1 + 0 = e
      ring
    have h := to_motor_eval identityRotator a e false rfl rfl ha he
    rw [hmul, haw, hemul] at h
    rw [h]
    have hnb : ¬(false = false ∧ (180 : ℝ) < |a - a|) := by
      simp
    rw [if_neg hnb, haw]

/-- Claim C7, witness: the amended identity law applied at the concrete point
`(90, 45)` of scenario S1. -/
theorem C7_identity_model_witness :
    to_real identityRotator 90 45 false = (wrapdeg 90, 45) ∧
      to_motor identityRotator 90 45 false = (wrapdeg 90, 45) :=
  C7_identity_model 90 45 (by norm_num) (by norm_num)

/-! ### More evaluation helpers -/

theorem to_azel_neg (q : Quaternion ℝ) : to_azel (-q) = to_azel q := by
  unfold to_azel
  rw [to_ypr_neg]

theorem to_motor_eval_shift (p : AzElRotator) (az el : ℝ) (w : Bool)
    (h0 : p.tilt_angle = 0) (h1 : p.lateral_tilt = 0)
    (ha : az - 360 ∈ Set.Ioo (-180 : ℝ) 180) (he : el ∈ Set.Ioo (-90 : ℝ) 90) :
    to_motor p az el w =
      (if w = false ∧ 180 < |wrapdeg ((az - 360) * p.az_gain + p.az_off) - az|
        then wrapdeg ((az - 360) * p.az_gain + p.az_off) + 360
        else wrapdeg ((az - 360) * p.az_gain + p.az_off),
       el * p.el_gain + p.el_off) := by
  simp only [to_motor]
  rw [platform_q_id h0, payload_q_id h1]
  simp only [star_one, one_mul, mul_one]
  have hsh : deg2rad (az - 360) = deg2rad az - 2 * π := by
    unfold deg2rad
    ring
  have hq : eul_to_q [deg2rad az, deg2rad el] [Axis.z, Axis.y]
      = -eul_to_q [deg2rad (az - 360), deg2rad el] [Axis.z, Axis.y] := by
    rw [hsh, eul_to_q_zy_sub_two_pi, neg_neg]
  rw [hq, to_azel_neg, to_azel_zy_deg _ _ ha he]

theorem to_real_identity (a e : ℝ) (ha : a ∈ Set.Ioo (-180 : ℝ) 180)
    (he : e ∈ Set.Ioo (-90 : ℝ) 90) :
    to_real identityRotator a e false = (a, e) := by
  have haw : wrapdeg a = a := wrapdeg_eq_self ⟨ha.1.le, ha.2⟩
  have hdiv : (a - identityRotator.az_off) / identityRotator.az_gain = a := by
    show (a - 0) / 1 = a
    norm_num
  have hediv : (e - identityRotator.el_off) / identityRotator.el_gain = e := by
    show (e - 0) / 1 = e
    norm_num
  have h := to_real_eval identityRotator a e false rfl rfl
    (by rw [hdiv, haw]; exact ha) (by rw [hediv]; exact he)
  rw [hdiv, haw, hediv] at h
  rw [h, if_neg (by simp)]

theorem to_motor_identity (a e : ℝ) (ha : a ∈ Set.Ioo (-180 : ℝ) 180)
    (he : e ∈ Set.Ioo (-90 : ℝ) 90) :
    to_motor identityRotator a e false = (a, e) := by
  have haw : wrapdeg a = a := wrapdeg_eq_self ⟨ha.1.le, ha.2⟩
  have hmul : a * identityRotator.az_gain + identityRotator.az_off = a := by
    show a * 1 + 0 = a
    ring
  have hemul : e * identityRotator.el_gain + identityRotator.el_off = e := by
    show e * 1 + 0 = e
    ring
  have h := to_motor_eval identityRotator a e false rfl rfl ha he
  rw [hmul, haw, hemul] at h
  rw [h, if_neg (by simp)]

/-! ### Claim C1 -/

/-- Parameter set inside the box of claim C1: `az_gain = 1.05`, every other
parameter at its identity value (tilts 0 are inside `[-5, 5]`, both gains are
inside `[0.95, 1.05]`). -/
def calibExampleRotator : AzElRotator := { az_gain := 21 / 20 }

/-- Claim C1 evaluated at its failing input: with `az_gain = 1.05` and all
other parameters identity, the code gives `to_real (200, 0) = (4000/21, 0)`
(about `(190.476, 0)`) and then `to_motor (4000/21, 0) = (182, 0)`, so the
round trip returns azimuth 182 for input 200 — an 18-degree error, far beyond
the claimed 1e-6 tolerance.  The input lies inside the claim's box
(`|e| = 0 ≤ 80`, gains in `[0.95, 1.05]`, tilts 0). -/
theorem C1_roundtrip_failure :
    to_real calibExampleRotator 200 0 false = (4000 / 21, 0) ∧
      to_motor calibExampleRotator (4000 / 21) 0 false = (182, 0) ∧
      (1 / 1000000 : ℝ) < |(182 : ℝ) - 200| := by
  refine ⟨?_, ?_, ?_⟩
  · have hdiv : ((200 : ℝ) - calibExampleRotator.az_off) / calibExampleRotator.az_gain
        = 4000 / 21 := by
      show ((200 : ℝ) - 0) / (21 / 20) = 4000 / 21
      norm_num
    have hwrap : wrapdeg ((4000 : ℝ) / 21) = -(3560 / 21) := by
      rw [wrapdeg_eq_sub (by constructor <;> norm_num)]
      norm_num
    have hel : ((0 : ℝ) - calibExampleRotator.el_off) / calibExampleRotator.el_gain = 0 := by
      show ((0 : ℝ) - 0) / 1 = 0
      norm_num
    have h := to_real_eval calibExampleRotator 200 0 false rfl rfl
      (by rw [hdiv, hwrap]; constructor <;> norm_num)
      (by rw [hel]; norm_num)
    rw [hdiv, hwrap, hel] at h
    have hcond : (false = false ∧ (180 : ℝ) < |-(3560 / 21) - 200|) := by
      refine ⟨rfl, ?_⟩
      rw [show (-(3560 / 21) : ℝ) - 200 = -(7760 / 21) by norm_num, abs_neg,
        abs_of_nonneg (by norm_num : (0 : ℝ) ≤ 7760 / 21)]
      norm_num
    rw [h, if_pos hcond]
    norm_num
  · have h := to_motor_eval_shift calibExampleRotator (4000 / 21) 0 false rfl rfl
      (by constructor <;> norm_num) (by norm_num)
    have hx : ((4000 : ℝ) / 21 - 360) * calibExampleRotator.az_gain
        + calibExampleRotator.az_off = -178 := by
      show ((4000 : ℝ) / 21 - 360) * (21 / 20) + 0 = -178
      norm_num
    rw [hx] at h
    have hwrap : wrapdeg (-178 : ℝ) = -178 := wrapdeg_eq_self (by constructor <;> norm_num)
    rw [hwrap] at h
    have hcond : (false = false ∧ (180 : ℝ) < |(-178 : ℝ) - 4000 / 21|) := by
      refine ⟨rfl, ?_⟩
      rw [show (-178 : ℝ) - 4000 / 21 = -(7738 / 21) by norm_num, abs_neg,
        abs_of_nonneg (by norm_num : (0 : ℝ) ≤ 7738 / 21)]
      norm_num
    rw [if_pos hcond] at h
    rw [h]
    have hel : (0 : ℝ) * calibExampleRotator.el_gain + calibExampleRotator.el_off = 0 := by
      show (0 : ℝ) * 1 + 0 = 0
      ring
    rw [hel]
    norm_num
  · rw [show (182 : ℝ) - 200 = -18 by norm_num, abs_neg,
      abs_of_nonneg (by norm_num : (0 : ℝ) ≤ 18)]
    norm_num

/-! ### Claim C2 -/

/-- Claim C2 evaluated at a failing input: with identity parameters and zero
rates, `to_real (90, 45, az_dot=0, el_dot=0)` returns the motor-frame radian
intermediates `(π/2, π/4)` as its position — not the real-frame degree
position `(90, 45)` that the rate-free call returns, as the claim states.
The rate outputs `(0, 0)` do follow the claimed `ω` formulas. -/
theorem C2_rates_position_bug :
    to_real_rates identityRotator 90 45 0 0 = ((π / 2, π / 4), (0, 0)) ∧
      (to_real_rates identityRotator 90 45 0 0).1 ≠ to_real identityRotator 90 45 false := by
  have h90 : ((90 : ℝ) - identityRotator.az_off) / identityRotator.az_gain = 90 := by
    show ((90 : ℝ) - 0) / 1 = 90
    norm_num
  have h45 : ((45 : ℝ) - identityRotator.el_off) / identityRotator.el_gain = 45 := by
    show ((45 : ℝ) - 0) / 1 = 45
    norm_num
  have hw90 : wrapdeg (90 : ℝ) = 90 := wrapdeg_eq_self (by constructor <;> norm_num)
  have hd90 : deg2rad (90 : ℝ) = π / 2 := by
    unfold deg2rad
    ring
  have hd45 : deg2rad (45 : ℝ) = π / 4 := by
    unfold deg2rad
    ring
  have hd0 : deg2rad (0 : ℝ) = 0 := by
    unfold deg2rad
    ring
  have hfst : to_real_rates identityRotator 90 45 0 0 = ((π / 2, π / 4), (0, 0)) := by
    simp only [to_real_rates]
    rw [h90, h45, hw90, hd90, hd45, hd0]
    have homega : (⟨0, 0, (0 : ℝ) / identityRotator.el_gain,
        (0 : ℝ) / identityRotator.az_gain⟩ : Quaternion ℝ) = 0 := by
      ext <;> simp
    rw [homega]
    simp only [zero_mul, smul_zero, mul_zero]
    have hr0 : rad2deg (0 : ℝ) = 0 := by
      unfold rad2deg
      ring
    simp [hr0]
  refine ⟨hfst, ?_⟩
  rw [hfst, to_real_identity 90 45 (by constructor <;> norm_num) (by constructor <;> norm_num)]
  intro hcontra
  have h1 := congrArg Prod.fst hcontra
  simp only at h1
  nlinarith [Real.pi_lt_d2]

end

/-! ### Orbit tracker: the `TargetTracker` state machine

The tick `TargetTracker.update_tracking` is embedded as a pure step function.
Wall-clock times are integers (seconds); `next_pass` is the result of
`target.get_next_pass()`; the returned record collects the new status, the
events emitted on the event exchange, whether a pointing broadcast was
published, and whether `calculate_passes` was invoked. -/

/-- orbit_tracker.py `TrackerStatus` (an IntEnum with values 0..4). -/
inductive TrackerStatus
  | disabled
  | waiting
  | aos
  | tracking
  | los
deriving DecidableEq

/-- Numeric value of the `TrackerStatus` IntEnum. -/
def statusVal : TrackerStatus → ℕ
  | .disabled => 0
  | .waiting => 1
  | .aos => 2
  | .tracking => 3
  | .los => 4

/-- A pass as consumed by `update_tracking`: AOS and LOS times in seconds.
Only these two fields drive the state machine. -/
structure Pass where
  t_aos : ℤ
  t_los : ℤ
deriving DecidableEq

/-- Event published on the event exchange by `update_tracking`; `preaos`
carries the pass dictionary. -/
inductive TrackerEvent
  | preaos (p : Pass)
  | aos
  | los
deriving DecidableEq

/-- Result of one tick of `TargetTracker.update_tracking`. -/
structure TickResult where
  status : TrackerStatus
  events : List TrackerEvent
  broadcast : Bool
  recompute : Bool
deriving DecidableEq

/-- orbit_tracker.py `TargetTracker.update_tracking` as a pure step: when
`get_next_pass()` returns none the status is set to DISABLED and no state
branch runs; otherwise the WAITING / AOS / TRACKING / LOS branches fire
exactly as in the source (the TRACKING branch always broadcasts a pointing
sample before testing LOS). -/
def update_tracking (st : TrackerStatus) (now : ℤ) (next_pass : Option Pass)
    (preaos_time : ℤ) : TickResult :=
  match next_pass with
  | none => ⟨.disabled, [], false, false⟩
  | some p =>
    match st with
    | .waiting =>
      if p.t_aos ≤ now then ⟨.tracking, [.aos], false, false⟩
      else if p.t_aos - preaos_time ≤ now then ⟨.aos, [.preaos p], false, false⟩
      else ⟨.waiting, [], false, false⟩
    | .aos =>
      if p.t_aos ≤ now then ⟨.tracking, [.aos], false, false⟩
      else ⟨.aos, [], false, false⟩
    | .tracking =>
      if p.t_los ≤ now then ⟨.los, [.los], true, false⟩
      else ⟨.tracking, [], true, false⟩
    | .los => ⟨.waiting, [], false, true⟩
    | .disabled => ⟨.disabled, [], false, false⟩

/-! ### Claim C3 -/

/-- Claim C3: with a pass available and a non-negative pre-AOS lead, one tick
of the tracker follows the spec table — WAITING emits `aos` and enters
TRACKING once `now ≥ t_aos`, else emits `preaos` and enters AOS once
`now ≥ t_aos - preaos_time`; AOS emits `aos` and enters TRACKING once
`now ≥ t_aos`; TRACKING emits `los` and enters LOS once `now ≥ t_los`; LOS
returns to WAITING and recomputes passes — and the status never moves
backwards in the order WAITING → AOS → TRACKING → LOS except at the
LOS → WAITING step. -/
theorem C3_state_machine (now : ℤ) (p : Pass) (pt : ℤ) (hpt : 0 ≤ pt) :
    ((p.t_aos ≤ now →
        update_tracking .waiting now (some p) pt = ⟨.tracking, [.aos], false, false⟩) ∧
      (now < p.t_aos → p.t_aos - pt ≤ now →
        update_tracking .waiting now (some p) pt = ⟨.aos, [.preaos p], false, false⟩) ∧
      (now < p.t_aos - pt →
        update_tracking .waiting now (some p) pt = ⟨.waiting, [], false, false⟩) ∧
      (p.t_aos ≤ now →
        update_tracking .aos now (some p) pt = ⟨.tracking, [.aos], false, false⟩) ∧
      (now < p.t_aos →
        update_tracking .aos now (some p) pt = ⟨.aos, [], false, false⟩) ∧
      (p.t_los ≤ now →
        update_tracking .tracking now (some p) pt = ⟨.los, [.los], true, false⟩) ∧
      (now < p.t_los →
        update_tracking .tracking now (some p) pt = ⟨.tracking, [], true, false⟩) ∧
      update_tracking .los now (some p) pt = ⟨.waiting, [], false, true⟩) ∧
    (∀ st : TrackerStatus, st ≠ .los →
      statusVal st ≤ statusVal (update_tracking st now (some p) pt).status) := by
  refine ⟨⟨?_, ?_, ?_, ?_, ?_, ?_, ?_, ?_⟩, ?_⟩
  · intro h
    simp [update_tracking, if_pos h]
  · intro h1 h2
    simp only [update_tracking]
    rw [if_neg (by omega : ¬p.t_aos ≤ now), if_pos (by omega : p.t_aos - pt ≤ now)]
  · intro h
    simp only [update_tracking]
    rw [if_neg (by omega : ¬p.t_aos ≤ now), if_neg (by omega : ¬p.t_aos - pt ≤ now)]
  · intro h
    simp [update_tracking, if_pos h]
  · intro h
    simp [update_tracking, if_neg (by omega : ¬p.t_aos ≤ now)]
  · intro h
    simp [update_tracking, if_pos h]
  · intro h
    simp [update_tracking, if_neg (by omega : ¬p.t_los ≤ now)]
  · rfl
  · intro st hst
    cases st with
    | disabled => simp [update_tracking, statusVal]
    | waiting =>
      simp only [update_tracking]
      split_ifs <;> simp [statusVal]
    | aos =>
      simp only [update_tracking]
      split_ifs <;> simp [statusVal]
    | tracking =>
      simp only [update_tracking]
      split_ifs <;> simp [statusVal]
    | los => exact absurd rfl hst

/-- Claim C3, witness: a tick in WAITING with `t_aos` already past emits `aos`
and enters TRACKING. -/
theorem C3_state_machine_witness :
    update_tracking .waiting 0 (some ⟨-10, 50⟩) 120 = ⟨.tracking, [.aos], false, false⟩ :=
  (C3_state_machine 0 ⟨-10, 50⟩ 120 (by decide)).1.1 (by decide)

/-! ### Claim C10 -/

/-- Claim C10: DISABLED is absorbing for the tick loop.  A single tick from
DISABLED leaves the status DISABLED, emits no event, publishes no pointing
broadcast and recomputes nothing — whatever `get_next_pass` returns, even a
fresh pass — and consequently any sequence of ticks started in DISABLED ends
in DISABLED. -/
theorem C10_disabled_absorbing :
    (∀ (now : ℤ) (np : Option Pass) (pt : ℤ),
        update_tracking .disabled now np pt = ⟨.disabled, [], false, false⟩) ∧
      (∀ (ticks : List (ℤ × Option Pass)) (pt : ℤ),
        ticks.foldl (fun st t => (update_tracking st t.1 t.2 pt).status) .disabled
          = .disabled) := by
  have hstep : ∀ (now : ℤ) (np : Option Pass) (pt : ℤ),
      update_tracking .disabled now np pt = ⟨.disabled, [], false, false⟩ := by
    intro now np pt
    cases np <;> rfl
  refine ⟨hstep, ?_⟩
  intro ticks pt
  induction ticks with
  | nil => rfl
  | cons t ts ih =>
    rw [List.foldl_cons, hstep t.1 t.2 pt]
    exact ih

/-! ### Orbit tracker: the `OrbitTracker.add_target` guards -/

/-- Spec model of a tracking target: a handle identified by `target_name`. -/
structure Target where
  target_name : String
deriving DecidableEq

/-- One live tracker entry held by the `OrbitTracker` supervisor. -/
structure TargetTracker where
  target : Target
  rotators : List String
deriving DecidableEq

/-- Event published by `add_target` (the `next_pass` bus event). -/
inductive SupervisorEvent
  | nextPass (p : Pass)
deriving DecidableEq

/-- orbit_tracker.py `OrbitTracker.add_target` reduced to its decision
structure: `tname` and `rotators` model the possibly-None arguments,
`resolved` the outcome of `get_satellite` / `get_celestial_object`, and
`next_pass` the outcome of `target.get_next_pass()`.  Returns the new tracker
list, the events published, and whether a tracker was created and started. -/
def add_target (trackers : List TargetTracker) (tname : Option String)
    (rotators : Option (List String)) (resolved : Option Target)
    (next_pass : Option Pass) : List TargetTracker × List SupervisorEvent × Bool :=
  match tname with
  | none => (trackers, [], false)
  | some name =>
    if name.length = 0 then (trackers, [], false)
    else
      match rotators with
      | none => (trackers, [], false)
      | some rots =>
        if rots.length = 0 then (trackers, [], false)
        else if name ∈ trackers.map (fun tt => tt.target.target_name) then
          (trackers, [], false)
        else
          match resolved with
          | none => (trackers, [], false)
          | some tgt =>
            match next_pass with
            | none => (trackers, [], false)
            | some p => (trackers ++ [⟨tgt, rots⟩], [.nextPass p], true)

/-! ### Claim C9 -/

/-- Claim C9: a call of `add_target` with a missing or empty target name, a
missing or empty rotator list, or a target name already tracked, returns with
no state change — the tracker collection is unchanged, no event is published,
and no tracker is created or started. -/
theorem C9_add_target_guards (trackers : List TargetTracker) (tname : Option String)
    (rotators : Option (List String)) (resolved : Option Target) (np : Option Pass)
    (h : tname = none ∨ tname = some (r"") ∨ rotators = none ∨ rotators = some [] ∨
      (∃ s, tname = some s ∧ s ∈ trackers.map (fun tt => tt.target.target_name))) :
    add_target trackers tname rotators resolved np = (trackers, [], false) := by
  rcases h with h | h | h | h | ⟨s, hs, hmem⟩
  · rw [h]
    rfl
  · rw [h]
    simp [add_target]
  · rw [h]
    cases tname with
    | none => rfl
    | some n =>
      simp only [add_target]
      split_ifs <;> rfl
  · rw [h]
    cases tname with
    | none => rfl
    | some n =>
      simp only [add_target]
      split_ifs with h1 h2 <;> first | rfl | simp at h2
  · rw [hs]
    simp only [add_target]
    cases rotators with
    | none =>
      split_ifs <;> rfl
    | some rots =>
      split_ifs <;> first | rfl | simp_all

/-- Claim C9, witness: adding an already-tracked target name with a fresh
rotator list leaves the supervisor state untouched. -/
theorem C9_add_target_guards_witness :
    add_target [⟨⟨r"ISS"⟩, [r"uhf"]⟩] (some (r"ISS")) (some [r"vhf"]) none none
      = ([⟨⟨r"ISS"⟩, [r"uhf"]⟩], [], false) :=
  C9_add_target_guards _ _ _ _ _
    (Or.inr (Or.inr (Or.inr (Or.inr ⟨r"ISS", rfl, by decide⟩))))

noncomputable section

/-! ### Calibration: the outlier-rejection loop of geometry.py `main`

The optimizer call is abstracted as a function `fit` of the (fixed) initial
parameter vector and the current data, exactly as in the source where every
iteration calls the optimizer on `params0` and the retained subset.  The
per-point residual norm is an arbitrary function of the fitted parameters and
one data point, matching `errnorm` evaluated row by row. -/

/-- numpy `median` of a list: sort, then take the middle element (odd length)
or the mean of the two middle elements (even length). -/
def npMedian (l : List ℝ) : ℝ :=
  let s := l.insertionSort (· ≤ ·)
  if l.length % 2 = 1 then s.getD (l.length / 2) 0
  else (s.getD (l.length / 2 - 1) 0 + s.getD (l.length / 2) 0) / 2

/-- One outlier-rejection iteration of geometry.py `main`: fit starting from
the fixed initial vector `params0`, compute the per-point residual norms at
the fitted parameters, and keep exactly the rows whose norm is strictly below
three times the median norm (`I = err < 3.0 * np.median(err); _data = _data[I]`). -/
def outlierStep {α β : Type} (fit : β → List α → β) (errnorm : β → α → ℝ)
    (params0 : β) (dat : List α) : List α :=
  let fitted := fit params0 dat
  let errs := dat.map (errnorm fitted)
  dat.filter (fun d => errnorm fitted d < 3 * npMedian errs)

/-- The retained data set after `n` outlier-rejection iterations. -/
def outlierLoop {α β : Type} (fit : β → List α → β) (errnorm : β → α → ℝ)
    (params0 : β) (dat : List α) : ℕ → List α
  | 0 => dat
  | n + 1 => outlierStep fit errnorm params0 (outlierLoop fit errnorm params0 dat n)

/-! ### Claim C4 -/

/-- Claim C4: every iteration of the calibration outlier-rejection loop fits
from the fixed initial vector `params0` (so the embedding passes `params0` to
the optimizer at each step, as the source does) and retains a filtered subset
of the current data, so the retained set of iteration `n+1` is a sublist of
that of iteration `n` and the retained count is non-increasing — for any
optimizer behaviour and any residual norm. -/
theorem C4_outlier_monotone {α β : Type} (fit : β → List α → β) (errnorm : β → α → ℝ)
    (params0 : β) (dat : List α) (n : ℕ) :
    (outlierLoop fit errnorm params0 dat (n + 1)).Sublist
        (outlierLoop fit errnorm params0 dat n) ∧
      (outlierLoop fit errnorm params0 dat (n + 1)).length
        ≤ (outlierLoop fit errnorm params0 dat n).length := by
  have hsub : (outlierLoop fit errnorm params0 dat (n + 1)).Sublist
      (outlierLoop fit errnorm params0 dat n) := by
    show (outlierStep fit errnorm params0 (outlierLoop fit errnorm params0 dat n)).Sublist
      (outlierLoop fit errnorm params0 dat n)
    exact List.filter_sublist _
  exact ⟨hsub, hsub.length_le⟩

/-! ### Calibration: pre-processing and encoder-drift removal -/

/-- One measurement record of the calibration `main`: measured motor azimuth
and elevation, plate-solved truth azimuth and elevation. -/
structure Measurement where
  az : ℝ
  el : ℝ
  gt_az : ℝ
  gt_el : ℝ

/-- geometry.py `main` lines 96-97: first wrap every truth azimuth with
`wrapdeg`; then add 360 to the truth azimuth of exactly those records whose
motor azimuth exceeds 180 and differs from the wrapped truth azimuth by more
than 180. -/
def preprocess (dat : List Measurement) : List Measurement :=
  let d1 := dat.map (fun r => { r with gt_az := wrapdeg r.gt_az })
  d1.map (fun r => if 180 < r.az ∧ 180 < |r.az - r.gt_az| then
    { r with gt_az := r.gt_az + 360 } else r)

/-! ### Claim C5 -/

/-- Claim C5, counterexample: the record `(az=170, el=0, gt_az=-170, gt_el=0)`
has motor and wrapped truth azimuths 340 degrees apart — more than 180 — yet
the code does not shift the truth azimuth by 360, because its branch fix-up
additionally requires the motor azimuth to exceed 180. -/
theorem C5_counterexample :
    preprocess [⟨170, 0, -170, 0⟩] = [⟨170, 0, -170, 0⟩] ∧
      (180 : ℝ) < |(170 : ℝ) - wrapdeg (-170)| ∧
      (preprocess [⟨170, 0, -170, 0⟩]).map Measurement.gt_az ≠ [wrapdeg (-170) + 360] := by
  have hw : wrapdeg (-170 : ℝ) = -170 := wrapdeg_eq_self (by constructor <;> norm_num)
  have habs : |(170 : ℝ) - wrapdeg (-170)| = 340 := by
    rw [hw]
    rw [show (170 : ℝ) - -170 = 340 by norm_num]
    exact abs_of_nonneg (by norm_num)
  have hval : preprocess [⟨170, 0, -170, 0⟩] = [⟨170, 0, -170, 0⟩] := by
    simp only [preprocess, List.map_cons, List.map_nil, hw]
    rw [if_neg (by norm_num)]
  refine ⟨hval, ?_, ?_⟩
  · rw [habs]
    norm_num
  · rw [hval, hw]
    simp

/-- Claim C5 (amended): the pre-processing maps each record independently —
the truth azimuth is first wrapped with `wrapdeg` (into `[-180, 180)`), and
then exactly the records whose motor azimuth exceeds 180 degrees and whose
motor azimuth differs from the wrapped truth azimuth by more than 180 degrees
get the additional +360 shift. -/
theorem C5_preprocess_rule (dat : List Measurement) :
    preprocess dat = dat.map (fun r =>
      if 180 < r.az ∧ 180 < |r.az - wrapdeg r.gt_az| then
        { r with gt_az := wrapdeg r.gt_az + 360 }
      else { r with gt_az := wrapdeg r.gt_az }) := by
  unfold preprocess
  rw [List.map_map]
  rfl

/-! ### Claim C8: the encoder-drift model -/

/-- Componentwise mean of a list of pairs (numpy `mean(·, axis=0)`). -/
def mean2 (l : List (ℝ × ℝ)) : ℝ × ℝ :=
  ((l.map Prod.fst).sum / l.length, (l.map Prod.snd).sum / l.length)

/-- Componentwise running sums (numpy `cumsum(·, axis=0)`). -/
def cumsum2 (acc : ℝ × ℝ) : List (ℝ × ℝ) → List (ℝ × ℝ)
  | [] => []
  | d :: ds => (acc.1 + d.1, acc.2 + d.2) :: cumsum2 (acc.1 + d.1, acc.2 + d.2) ds

/-- The motor-angle columns `dat[:, 0:2]`. -/
def motorCols (dat : List Measurement) : List (ℝ × ℝ) := dat.map (fun r => (r.az, r.el))

/-- Cumulative absolute slew distance of the motor readings:
`np.cumsum(np.abs(wrapdeg(np.diff(dat[:, 0:2], axis=0))), axis=0)`. -/
def slewDistance (dat : List Measurement) : List (ℝ × ℝ) :=
  let motor := motorCols dat
  let diffs := (motor.zip motor.tail).map
    (fun x => (|wrapdeg (x.2.1 - x.1.1)|, |wrapdeg (x.2.2 - x.1.2)|))
  cumsum2 (0, 0) diffs

/-- Per-point pointing error `wrapdeg(m_gt - dat[:, 0:2])` of `get_drift`,
with the truth projected through the current model with `to_motor`. -/
def driftErrs (rot : AzElRotator) (dat : List Measurement) : List (ℝ × ℝ) :=
  dat.map (fun r =>
    ((wrapdeg ((to_motor rot r.gt_az r.gt_el false).1 - r.az)),
     (wrapdeg ((to_motor rot r.gt_az r.gt_el false).2 - r.el))))

/-- `err0` of geometry.py `get_drift`: the mean pointing error over the first
`n` points. -/
def drift_err0 (rot : AzElRotator) (n : ℕ) (dat : List Measurement) : ℝ × ℝ :=
  mean2 ((driftErrs rot dat).take n)

/-- `err1` of geometry.py `get_drift`: the mean pointing error over the last
`n` points. -/
def drift_err1 (rot : AzElRotator) (n : ℕ) (dat : List Measurement) : ℝ × ℝ :=
  mean2 ((driftErrs rot dat).drop ((driftErrs rot dat).length - n))

/-- geometry.py `get_drift`: the per-point drift that `errorfn` subtracts from
the motor readings, `-concatenate((err0, err0 + (err1 - err0) * distance /
distance[-1]))`. -/
def get_drift (rot : AzElRotator) (n : ℕ) (dat : List Measurement) : List (ℝ × ℝ) :=
  let err0 := drift_err0 rot n dat
  let err1 := drift_err1 rot n dat
  let distance := slewDistance dat
  let dlast := distance.getLastD (0, 0)
  let err := distance.map (fun d =>
    (err0.1 + (err1.1 - err0.1) * (d.1 / dlast.1),
     err0.2 + (err1.2 - err0.2) * (d.2 / dlast.2)))
  (err0 :: err).map (fun e => (-e.1, -e.2))

theorem cumsum2_length (acc : ℝ × ℝ) (l : List (ℝ × ℝ)) :
    (cumsum2 acc l).length = l.length := by
  induction l generalizing acc with
  | nil => rfl
  | cons d ds ih =>
    simp [cumsum2, ih]

theorem slewDistance_length (dat : List Measurement) :
    (slewDistance dat).length = dat.length - 1 := by
  unfold slewDistance motorCols
  simp only [cumsum2_length, List.length_map, List.length_zip, List.length_tail]
  omega

/-- Claim C8, counterexample: on a concrete two-point data set the first entry
of `get_drift` is `-err0`, not `err0` as the claim states — the code returns
the negated interpolation so that subtracting it adds the measured error back
onto the motor readings. -/
theorem C8_counterexample :
    (get_drift identityRotator 1 [⟨0, 0, 10, 20⟩, ⟨50, 10, 60, 30⟩]).head? =
        some (-10, -20) ∧
      drift_err0 identityRotator 1 [⟨0, 0, 10, 20⟩, ⟨50, 10, 60, 30⟩] = (10, 20) ∧
      ((-10 : ℝ), (-20 : ℝ)) ≠ ((10 : ℝ), (20 : ℝ)) := by
  have hm1 : to_motor identityRotator 10 20 false = (10, 20) :=
    to_motor_identity 10 20 (by constructor <;> norm_num) (by constructor <;> norm_num)
  have hm2 : to_motor identityRotator 60 30 false = (60, 30) :=
    to_motor_identity 60 30 (by constructor <;> norm_num) (by constructor <;> norm_num)
  have hw10 : wrapdeg (10 : ℝ) = 10 := wrapdeg_eq_self (by constructor <;> norm_num)
  have hw20 : wrapdeg (20 : ℝ) = 20 := wrapdeg_eq_self (by constructor <;> norm_num)
  have herrs : driftErrs identityRotator [⟨0, 0, 10, 20⟩, ⟨50, 10, 60, 30⟩] =
      [(10, 20), (10, 20)] := by
    simp only [driftErrs, List.map_cons, List.map_nil]
    rw [hm1, hm2]
    norm_num [hw10, hw20]
  have herr0 : drift_err0 identityRotator 1 [⟨0, 0, 10, 20⟩, ⟨50, 10, 60, 30⟩] = (10, 20) := by
    unfold drift_err0
    rw [herrs]
    show mean2 [(10, 20)] = (10, 20)
    unfold mean2
    norm_num
  refine ⟨?_, herr0, by intro hcon; exact absurd (congrArg Prod.fst hcon) (by norm_num)⟩
  simp only [get_drift, List.map_cons, List.head?_cons]
  rw [herr0]

/-- Claim C8 (amended): the drift list returned by `get_drift` (the quantity
subtracted from the motor readings before residuals are computed) has one
entry per data point and is the negated linear interpolation along cumulative
absolute slew distance: its first entry is `-err0` and its last entry is
`-err1`, where `err0` and `err1` are the mean pointing errors over the first
and last `n` points with the truth projected through the current model's
`to_motor` — provided at least two data points and non-zero total slew
distance on both axes. -/
theorem C8_drift_endpoints (rot : AzElRotator) (n : ℕ) (dat : List Measurement)
    (hlen : 2 ≤ dat.length)
    (h1 : ((slewDistance dat).getLastD (0, 0)).1 ≠ 0)
    (h2 : ((slewDistance dat).getLastD (0, 0)).2 ≠ 0) :
    (get_drift rot n dat).length = dat.length ∧
      (get_drift rot n dat).head? =
        some (-(drift_err0 rot n dat).1, -(drift_err0 rot n dat).2) ∧
      (get_drift rot n dat).getLast? =
        some (-(drift_err1 rot n dat).1, -(drift_err1 rot n dat).2) := by
  have hdist_len : (slewDistance dat).length = dat.length - 1 := slewDistance_length dat
  have hdist_ne : slewDistance dat ≠ [] := by
    intro hcon
    rw [hcon] at hdist_len
    simp at hdist_len
    omega
  obtain ⟨dl, hdl⟩ : ∃ x, (slewDistance dat).getLast? = some x := by
    cases hcase : (slewDistance dat).getLast? with
    | none => exact absurd (List.getLast?_eq_none_iff.mp hcase) hdist_ne
    | some x => exact ⟨x, rfl⟩
  have hdlD : (slewDistance dat).getLastD (0, 0) = dl := by
    rw [List.getLastD_eq_getLast?, hdl]
    rfl
  refine ⟨?_, ?_, ?_⟩
  · simp only [get_drift, List.length_map, List.length_cons, cumsum2_length]
    rw [hdist_len]
    omega
  · simp only [get_drift, List.map_cons, List.head?_cons]
  · simp only [get_drift]
    rw [List.getLast?_map]
    have hcons : ((drift_err0 rot n dat) ::
        (slewDistance dat).map (fun d =>
          ((drift_err0 rot n dat).1 + ((drift_err1 rot n dat).1 - (drift_err0 rot n dat).1)
              * (d.1 / ((slewDistance dat).getLastD (0, 0)).1),
           (drift_err0 rot n dat).2 + ((drift_err1 rot n dat).2 - (drift_err0 rot n dat).2)
              * (d.2 / ((slewDistance dat).getLastD (0, 0)).2)))).getLast?
        = ((slewDistance dat).map (fun d =>
          ((drift_err0 rot n dat).1 + ((drift_err1 rot n dat).1 - (drift_err0 rot n dat).1)
              * (d.1 / ((slewDistance dat).getLastD (0, 0)).1),
           (drift_err0 rot n dat).2 + ((drift_err1 rot n dat).2 - (drift_err0 rot n dat).2)
              * (d.2 / ((slewDistance dat).getLastD (0, 0)).2)))).getLast? := by
      cases hc : slewDistance dat with
      | nil => exact absurd hc hdist_ne
      | cons b t => rfl
    rw [hcons, List.getLast?_map, hdl]
    have hfin : (drift_err0 rot n dat).1 + ((drift_err1 rot n dat).1 - (drift_err0 rot n dat).1)
          * (dl.1 / ((slewDistance dat).getLastD (0, 0)).1) = (drift_err1 rot n dat).1 := by
      rw [hdlD, div_self (by rw [hdlD] at h1; exact h1)]
      ring
    have hfin2 : (drift_err0 rot n dat).2 + ((drift_err1 rot n dat).2 - (drift_err0 rot n dat).2)
          * (dl.2 / ((slewDistance dat).getLastD (0, 0)).2) = (drift_err1 rot n dat).2 := by
      rw [hdlD, div_self (by rw [hdlD] at h2; exact h2)]
      ring
    simp only [Option.map_some']
    rw [hfin, hfin2]

/-- Claim C8, witness: the amended endpoint law applied to a concrete
two-point data set with non-zero slew distance on both axes. -/
theorem C8_drift_endpoints_witness :
    (get_drift identityRotator 1 [⟨0, 0, 0, 0⟩, ⟨50, 10, 50, 10⟩]).length =
        ([⟨0, 0, 0, 0⟩, ⟨50, 10, 50, 10⟩] : List Measurement).length ∧
      (get_drift identityRotator 1 [⟨0, 0, 0, 0⟩, ⟨50, 10, 50, 10⟩]).head? =
        some (-(drift_err0 identityRotator 1 [⟨0, 0, 0, 0⟩, ⟨50, 10, 50, 10⟩]).1,
          -(drift_err0 identityRotator 1 [⟨0, 0, 0, 0⟩, ⟨50, 10, 50, 10⟩]).2) ∧
      (get_drift identityRotator 1 [⟨0, 0, 0, 0⟩, ⟨50, 10, 50, 10⟩]).getLast? =
        some (-(drift_err1 identityRotator 1 [⟨0, 0, 0, 0⟩, ⟨50, 10, 50, 10⟩]).1,
          -(drift_err1 identityRotator 1 [⟨0, 0, 0, 0⟩, ⟨50, 10, 50, 10⟩]).2) := by
  have hw50 : wrapdeg (50 : ℝ) = 50 := wrapdeg_eq_self (by constructor <;> norm_num)
  have hw10 : wrapdeg (10 : ℝ) = 10 := wrapdeg_eq_self (by constructor <;> norm_num)
  have hslew : slewDistance [⟨0, 0, 0, 0⟩, ⟨50, 10, 50, 10⟩] = [(50, 10)] := by
    simp only [slewDistance, motorCols, List.map_cons, List.map_nil, List.tail_cons]
    norm_num [List.zip, List.zipWith, cumsum2, hw50, hw10]
  exact C8_drift_endpoints identityRotator 1 [⟨0, 0, 0, 0⟩, ⟨50, 10, 50, 10⟩] (by norm_num)
    (by rw [hslew]; norm_num) (by rw [hslew]; norm_num)

end
